import Mathlib

/-!
# Verification of the embedded-terminal subsystem of `dif`

A shallow embedding, in Lean 4, of the terminal subsystem of the `dif`
repository: the copy-mode controller (`src/app.rs`, `src/app/util.rs`),
the key encoder and PTY session surface (`src/terminal.rs`).  Pure Rust
functions become Lean functions over `Nat`, `List Char` and `String`;
the mutable `App` and session state become explicit state passing.
External collaborators (the vt100 engine, the clipboard, the OS) appear
as parameters whose behaviour is fixed by the specification.
-/

namespace Dif

/-! ## `src/app/util.rs` -/

/-- `order_positions` from `src/app/util.rs`: row-major normalisation of two
(row, col) positions. -/
def order_positions (a b : Nat × Nat) : (Nat × Nat) × (Nat × Nat) :=
  if a.1 < b.1 ∨ (a.1 = b.1 ∧ a.2 ≤ b.2) then (a, b) else (b, a)

/-- The scan loop of `find_query_in_line`: starting at character index `idx`,
try `n` successive indices, returning the first where `query` occurs. -/
def scanLine (line query : List Char) : Nat → Nat → Option Nat
  | _, 0 => none
  | idx, n + 1 =>
    if (line.drop idx).take query.length = query then some idx
    else scanLine line query (idx + 1) n

/-- `find_query_in_line` from `src/app/util.rs`: first character index
`≥ start_col` at which `query` occurs in `line` (character-indexed). -/
def find_query_in_line (line query : List Char) (startCol : Nat) : Option Nat :=
  if query.length = 0 then none
  else if line.length < query.length then none
  else
    let frm := min startCol line.length
    scanLine line query frm (line.length - query.length + 1 - frm)

/-! ## Copy-mode state (`App` fields of `src/app.rs`) -/

/-- `StatusKind` from `src/app/status.rs`. -/
inductive StatusKind
  | info
  | warn
  | error
deriving DecidableEq, Repr

/-- `StatusMessage` from `src/app/status.rs`. -/
structure StatusMessage where
  kind : StatusKind
  text : String
deriving DecidableEq, Repr

/-- The terminal-related fields of `App` in `src/app.rs` together with the
status line.  The live `TerminalSession` is not a field: its observable
pieces (the plain-row snapshot, the engine's buffered-line count, the
clipboard) are passed as parameters to the operations that consult them. -/
structure App where
  terminal_copy_mode : Bool
  terminal_search_open : Bool
  terminal_search_query : List Char
  terminal_last_search : List Char
  terminal_cursor_row : Nat
  terminal_cursor_col : Nat
  terminal_selection_anchor : Option (Nat × Nat)
  terminal_view_rows : Nat
  terminal_view_cols : Nat
  terminal_scrollback : Nat
  status : StatusMessage
deriving DecidableEq, Repr

/-- `App::set_status_info`. -/
def set_status_info (text : String) (st : App) : App :=
  { st with status := ⟨StatusKind.info, text⟩ }

/-- `App::set_status_warn`. -/
def set_status_warn (text : String) (st : App) : App :=
  { st with status := ⟨StatusKind.warn, text⟩ }

/-- `App::set_status_error` (also reached through `App::set_error`). -/
def set_status_error (text : String) (st : App) : App :=
  { st with status := ⟨StatusKind.error, "Error: " ++ text⟩ }

/-! ## Scrolling and cursor movement (`src/app.rs`) -/

/-- Modelled from the spec: the terminal-emulation engine (an external
crate, not part of this repository) clamps a requested scrollback offset
to `[0, total_buffered_lines]`; `set_scrollback` stores the clamp and
`scrollback()` reads it back. -/
def engineClampScrollback (buffered target : Nat) : Nat :=
  min target buffered

/-- `App::scroll_terminal` from `src/app.rs` (session present):
saturating move of the scrollback target, engine clamp, and re-clamp of
the cursor row to the viewport. -/
def scroll_terminal (buffered : Nat) (delta : Int) (st : App) : App :=
  let target : Nat :=
    if delta < 0 then st.terminal_scrollback - delta.natAbs
    else st.terminal_scrollback + delta.toNat
  let sb := engineClampScrollback buffered target
  { st with
    terminal_scrollback := sb
    terminal_cursor_row := min st.terminal_cursor_row (st.terminal_view_rows - 1) }

/-- The body of the upward `for` loop in `App::terminal_move_cursor`,
iterated `n` times. -/
def moveUpSteps (buffered : Nat) : Nat → App → App
  | 0, st => st
  | n + 1, st =>
    moveUpSteps buffered n
      (if 0 < st.terminal_cursor_row then
        { st with terminal_cursor_row := st.terminal_cursor_row - 1 }
      else scroll_terminal buffered 1 st)

/-- The body of the downward `for` loop in `App::terminal_move_cursor`,
iterated `n` times. -/
def moveDownSteps (buffered : Nat) : Nat → App → App
  | 0, st => st
  | n + 1, st =>
    moveDownSteps buffered n
      (if st.terminal_cursor_row < st.terminal_view_rows - 1 then
        { st with terminal_cursor_row := st.terminal_cursor_row + 1 }
      else if 0 < st.terminal_scrollback then scroll_terminal buffered (-1) st
      else st)

/-- `App::terminal_move_cursor` from `src/app.rs`. -/
def terminal_move_cursor (buffered : Nat) (rowDelta colDelta : Int) (st : App) : App :=
  let st :=
    if rowDelta ≠ 0 then
      if rowDelta < 0 then moveUpSteps buffered rowDelta.natAbs st
      else moveDownSteps buffered rowDelta.toNat st
    else st
  if colDelta < 0 then
    { st with terminal_cursor_col := st.terminal_cursor_col - colDelta.natAbs }
  else if colDelta > 0 then
    { st with
      terminal_cursor_col :=
        min (st.terminal_cursor_col + colDelta.toNat) (st.terminal_view_cols - 1) }
  else st

/-! ## Yank (`App::terminal_yank_selection`, `src/app.rs`) -/

/-- The piece contributed by row `rowIdx` in the extraction loop of
`App::terminal_yank_selection`: slice `[from, to_exclusive)` of the row's
characters, where `from` applies `start_col` (clamped) on the first row and
`to_exclusive` applies `end_col + 1` (clamped) on the last. -/
def yankSlice (rows : List (List Char)) (startRow startCol endRow endCol rowIdx : Nat) :
    List Char :=
  let chars := (rows.get? rowIdx).getD []
  let frm := if rowIdx = startRow then min startCol chars.length else 0
  let toExcl := if rowIdx = endRow then min (endCol + 1) chars.length else chars.length
  (chars.drop frm).take (toExcl - frm)

/-- The text extracted by `App::terminal_yank_selection` from the plain-row
snapshot for a given anchor and cursor: normalise with `order_positions`,
take each row's `yankSlice`, join with a newline. -/
def yankText (rows : List (List Char)) (anchor cursor : Nat × Nat) : List Char :=
  let se := order_positions anchor cursor
  List.intercalate ['\n']
    ((List.range (se.2.1 + 1 - se.1.1)).map
      (fun i => yankSlice rows se.1.1 se.1.2 se.2.1 se.2.2 (se.1.1 + i)))

/-- The extraction as the specification words it: whichever endpoint is
earlier in row-major order becomes `start`; the first selected row
contributes the characters from `start.col` to the row's end, the last
row the characters `0 .. end.col` inclusive, rows strictly between
contribute the whole row (a single selected row obeys both endpoint
rules); rows are joined with a newline; all indexing is by character. -/
def specYankText (rows : List (List Char)) (anchor cursor : Nat × Nat) : List Char :=
  let s := if anchor.1 < cursor.1 ∨ (anchor.1 = cursor.1 ∧ anchor.2 ≤ cursor.2)
    then anchor else cursor
  let e := if anchor.1 < cursor.1 ∨ (anchor.1 = cursor.1 ∧ anchor.2 ≤ cursor.2)
    then cursor else anchor
  let piece := fun (r : Nat) =>
    let row := (rows.get? r).getD []
    if r = s.1 ∧ r = e.1 then (row.take (e.2 + 1)).drop s.2
    else if r = s.1 then row.drop s.2
    else if r = e.1 then row.take (e.2 + 1)
    else row
  List.intercalate ['\n'] ((List.range' s.1 (e.1 + 1 - s.1)).map piece)

/-- How the two `arboard` clipboard calls inside
`App::terminal_yank_selection` behave; the clipboard is an external
collaborator, so its behaviour is a parameter. -/
inductive ClipboardBehavior
  | accessFails
  | writeFails
  | ok
deriving DecidableEq, Repr

/-- Result of `App::terminal_yank_selection`: the new state, the `Result`
returned to the caller, and the list of texts passed to the clipboard's
`set_text` (so that "no clipboard call" is observable). -/
structure YankResult where
  app : App
  res : Except String Unit
  clipboardWrites : List (List Char)
deriving Repr

/-- `App::terminal_yank_selection` from `src/app.rs`, over a plain-row
snapshot and a clipboard behaviour. -/
def terminal_yank_selection (rows : List (List Char)) (clip : ClipboardBehavior)
    (st : App) : YankResult :=
  match st.terminal_selection_anchor with
  | none => ⟨set_status_warn "No selection anchor; press v first" st, Except.ok (), []⟩
  | some anchor =>
    if rows.isEmpty then ⟨set_status_warn "Nothing to copy" st, Except.ok (), []⟩
    else
      let out := yankText rows anchor (st.terminal_cursor_row, st.terminal_cursor_col)
      if out.isEmpty then ⟨set_status_warn "Selection is empty" st, Except.ok (), []⟩
      else
        match clip with
        | ClipboardBehavior.accessFails =>
          ⟨st, Except.error "failed to access system clipboard", []⟩
        | ClipboardBehavior.writeFails =>
          ⟨st, Except.error "failed to copy selection to clipboard", [out]⟩
        | ClipboardBehavior.ok =>
          ⟨{ set_status_info ("Copied " ++ toString out.length ++ " chars") st with
              terminal_selection_anchor := none }, Except.ok (), [out]⟩

/-- `run_action` from `src/input.rs`: an `Err` from an action is surfaced
through `App::set_error` as an error status. -/
def run_action (st : App) (res : Except String Unit) : App :=
  match res with
  | Except.error e => set_status_error e st
  | Except.ok _ => st

/-! ## Search (`App::terminal_search_next`, `src/app.rs`) -/

/-- One pass of the row loop in `App::terminal_search_next`: scan the rows
whose indices are listed, using `find_query_in_line` with column start
`startCol` on the starting row and `0` elsewhere. -/
def searchPass (rows : List (List Char)) (query : List Char) (startRow startCol : Nat) :
    List Nat → Option (Nat × Nat)
  | [] => none
  | r :: rest =>
    match find_query_in_line ((rows.get? r).getD []) query
        (if r = startRow then startCol else 0) with
    | some c => some (r, c)
    | none => searchPass rows query startRow startCol rest

/-- The two-pass search of `App::terminal_search_next`: scan rows
`start_row .. rows.len()` (starting strictly after the cursor column on
the starting row), then wrap and scan rows `0 .. start_row`. -/
def searchFound (rows : List (List Char)) (query : List Char) (startRow startCol : Nat) :
    Option (Nat × Nat) :=
  match searchPass rows query startRow startCol
      (List.range' startRow (rows.length - startRow)) with
  | some rc => some rc
  | none => searchPass rows query startRow startCol (List.range' 0 startRow)

/-- `str::trim` on a character list: strip leading and trailing
whitespace (queries are kept as character lists so that trimming stays
a structural computation). -/
def trimChars (s : List Char) : List Char :=
  ((s.dropWhile Char.isWhitespace).reverse.dropWhile Char.isWhitespace).reverse

/-- `App::terminal_search_next` from `src/app.rs`, over a plain-row
snapshot. -/
def terminal_search_next (rows : List (List Char)) (st : App) : App :=
  let query := trimChars (if st.terminal_search_open then st.terminal_search_query
    else st.terminal_last_search)
  if query.isEmpty then
    { set_status_warn "Search query is empty" st with terminal_search_open := false }
  else
    let st := { st with terminal_last_search := query, terminal_search_open := false }
    if rows.isEmpty then set_status_warn "No terminal output to search" st
    else
      let startRow := min st.terminal_cursor_row (rows.length - 1)
      let startCol := st.terminal_cursor_col + 1
      match searchFound rows query startRow startCol with
      | some (r, c) =>
        set_status_info ("Found `" ++ String.mk query ++ "`")
          { st with
            terminal_cursor_row := min r (st.terminal_view_rows - 1)
            terminal_cursor_col := min c (st.terminal_view_cols - 1) }
      | none => set_status_warn ("No match for `" ++ String.mk query ++ "`") st

/-! ## Key encoding (`src/terminal.rs`) -/

/-- The key codes distinguished by `encode_key_event` in `src/terminal.rs`
(crossterm `KeyCode`); every further crossterm code falls into the
wildcard arm and is represented by `other`. -/
inductive KeyCode
  | enter
  | tab
  | backTab
  | backspace
  | esc
  | left
  | right
  | up
  | down
  | home
  | endKey
  | pageUp
  | pageDown
  | insert
  | delete
  | f (n : Nat)
  | char (c : Char)
  | other
deriving DecidableEq, Repr

/-- The crossterm modifier bits consulted by `encode_key_event`. -/
structure KeyModifiers where
  ctrl : Bool
  alt : Bool
  shift : Bool
deriving DecidableEq, Repr

/-- A crossterm `KeyEvent` as consumed by `encode_key_event`. -/
structure KeyEvent where
  code : KeyCode
  modifiers : KeyModifiers
deriving DecidableEq, Repr

/-- `ctrl_code` from `src/terminal.rs`: the C0 byte for CTRL plus a
character, `none` for characters outside the table. -/
def ctrl_code (ch : Char) : Option Nat :=
  if ch = ' ' ∨ ch = '2' ∨ ch = '@' then some 0
  else if 'a' ≤ ch ∧ ch ≤ 'z' then some (ch.toNat - 'a'.toNat + 1)
  else if 'A' ≤ ch ∧ ch ≤ 'Z' then some (ch.toNat - 'A'.toNat + 1)
  else if ch = '3' ∨ ch = '[' then some 27
  else if ch = '4' ∨ ch = '\\' then some 28
  else if ch = '5' ∨ ch = ']' then some 29
  else if ch = '6' ∨ ch = '^' then some 30
  else if ch = '7' ∨ ch = '/' ∨ ch = '_' then some 31
  else if ch = '8' ∨ ch = '?' then some 127
  else none

/-- The UTF-8 encoding of one scalar value, as `char::encode_utf8`
produces it (byte values as `Nat`). -/
def utf8Bytes (c : Char) : List Nat :=
  let n := c.toNat
  if n < 0x80 then [n]
  else if n < 0x800 then [0xC0 + n / 64, 0x80 + n % 64]
  else if n < 0x10000 then [0xE0 + n / 4096, 0x80 + n / 64 % 64, 0x80 + n % 64]
  else [0xF0 + n / 262144, 0x80 + n / 4096 % 64, 0x80 + n / 64 % 64, 0x80 + n % 64]

/-- The escape sequence emitted for an F-key in `encode_key_event`
(`F1`–`F4` → `ESC O P/Q/R/S`, `F5`–`F12` → numbered `ESC[..~` forms,
anything else falls into the wildcard arm). -/
def fKeyBytes : Nat → Option (List Nat)
  | 1 => some [27, 79, 80]
  | 2 => some [27, 79, 81]
  | 3 => some [27, 79, 82]
  | 4 => some [27, 79, 83]
  | 5 => some [27, 91, 49, 53, 126]
  | 6 => some [27, 91, 49, 55, 126]
  | 7 => some [27, 91, 49, 56, 126]
  | 8 => some [27, 91, 49, 57, 126]
  | 9 => some [27, 91, 50, 48, 126]
  | 10 => some [27, 91, 50, 49, 126]
  | 11 => some [27, 91, 50, 51, 126]
  | 12 => some [27, 91, 50, 52, 126]
  | _ => none

/-- `encode_key_event` from `src/terminal.rs`: the bytes accumulated by the
`match` on the key code (with the `?` of `ctrl_code` propagating `None`),
then the ALT/meta `ESC` prefix when the sequence is non-empty. -/
def encode_key_event (event : KeyEvent) : Option (List Nat) :=
  let base : Option (List Nat) :=
    match event.code with
    | KeyCode.enter => some [13]
    | KeyCode.tab =>
      if event.modifiers.shift then some [27, 91, 90] else some [9]
    | KeyCode.backTab => some [27, 91, 90]
    | KeyCode.backspace => some [0x7f]
    | KeyCode.esc => some [0x1b]
    | KeyCode.left => some [27, 91, 68]
    | KeyCode.right => some [27, 91, 67]
    | KeyCode.up => some [27, 91, 65]
    | KeyCode.down => some [27, 91, 66]
    | KeyCode.home => some [27, 91, 72]
    | KeyCode.endKey => some [27, 91, 70]
    | KeyCode.pageUp => some [27, 91, 53, 126]
    | KeyCode.pageDown => some [27, 91, 54, 126]
    | KeyCode.insert => some [27, 91, 50, 126]
    | KeyCode.delete => some [27, 91, 51, 126]
    | KeyCode.f n => fKeyBytes n
    | KeyCode.char ch =>
      if event.modifiers.ctrl then (ctrl_code ch).map (fun b => [b])
      else some (utf8Bytes ch)
    | KeyCode.other => none
  match base with
  | none => none
  | some bytes =>
    if event.modifiers.alt ∧ bytes ≠ [] then some (27 :: bytes) else some bytes

/-- The key-encoding mapping exactly as the claim words it: printable
characters to UTF-8 bytes, CTRL plus a character through the C0 table,
the claim's fixed list of named keys (which does not mention `BackTab`),
`none` for any uncovered key/modifier combination, and an `ESC` prefix
when ALT is held and a non-empty sequence was produced. -/
def encodeClaimSpec (event : KeyEvent) : Option (List Nat) :=
  let base : Option (List Nat) :=
    match event.code with
    | KeyCode.char ch =>
      if event.modifiers.ctrl then (ctrl_code ch).map (fun b => [b])
      else some (utf8Bytes ch)
    | KeyCode.enter => some [13]
    | KeyCode.tab =>
      if event.modifiers.shift then some [27, 91, 90] else some [9]
    | KeyCode.backspace => some [0x7f]
    | KeyCode.esc => some [0x1b]
    | KeyCode.up => some [27, 91, 65]
    | KeyCode.down => some [27, 91, 66]
    | KeyCode.right => some [27, 91, 67]
    | KeyCode.left => some [27, 91, 68]
    | KeyCode.home => some [27, 91, 72]
    | KeyCode.endKey => some [27, 91, 70]
    | KeyCode.pageUp => some [27, 91, 53, 126]
    | KeyCode.pageDown => some [27, 91, 54, 126]
    | KeyCode.insert => some [27, 91, 50, 126]
    | KeyCode.delete => some [27, 91, 51, 126]
    | KeyCode.f n => fKeyBytes n
    | KeyCode.backTab => none
    | KeyCode.other => none
  match base with
  | none => none
  | some bytes =>
    if event.modifiers.alt ∧ bytes ≠ [] then some (27 :: bytes) else some bytes

/-- The claim's mapping amended by the single fact the code forces:
`BackTab` is also a covered named key and encodes as `ESC[Z`
(independently of CTRL/SHIFT, with the usual ALT prefix). -/
def encodeSpecAmended (event : KeyEvent) : Option (List Nat) :=
  let base : Option (List Nat) :=
    match event.code with
    | KeyCode.char ch =>
      if event.modifiers.ctrl then (ctrl_code ch).map (fun b => [b])
      else some (utf8Bytes ch)
    | KeyCode.enter => some [13]
    | KeyCode.tab =>
      if event.modifiers.shift then some [27, 91, 90] else some [9]
    | KeyCode.backTab => some [27, 91, 90]
    | KeyCode.backspace => some [0x7f]
    | KeyCode.esc => some [0x1b]
    | KeyCode.up => some [27, 91, 65]
    | KeyCode.down => some [27, 91, 66]
    | KeyCode.right => some [27, 91, 67]
    | KeyCode.left => some [27, 91, 68]
    | KeyCode.home => some [27, 91, 72]
    | KeyCode.endKey => some [27, 91, 70]
    | KeyCode.pageUp => some [27, 91, 53, 126]
    | KeyCode.pageDown => some [27, 91, 54, 126]
    | KeyCode.insert => some [27, 91, 50, 126]
    | KeyCode.delete => some [27, 91, 51, 126]
    | KeyCode.f n => fKeyBytes n
    | KeyCode.other => none
  match base with
  | none => none
  | some bytes =>
    if event.modifiers.alt ∧ bytes ≠ [] then some (27 :: bytes) else some bytes

/-! ## Session surface (`src/terminal.rs`) -/

/-- The `exited` flag of `TerminalSession`; the other session fields are
OS handles irrelevant to exit polling. -/
structure SessionExitState where
  exited : Bool
deriving DecidableEq, Repr

/-- `TerminalSession::start` initialises the session with `exited: false`. -/
def sessionExitAtStart : SessionExitState := ⟨false⟩

/-- `TerminalSession::is_exited`. -/
def is_exited (s : SessionExitState) : Bool :=
  s.exited

/-- What one `child.try_wait()` call reports: child still running, child
terminated with a printable status, or the check itself failed. -/
inductive TryWaitOutcome
  | running
  | done (status : String)
  | failed (msg : String)

/-- `TerminalSession::poll_exit_message` from `src/terminal.rs`. -/
def poll_exit_message (tw : TryWaitOutcome) (s : SessionExitState) :
    SessionExitState × Except String (Option String) :=
  if s.exited then (s, Except.ok none)
  else
    match tw with
    | TryWaitOutcome.running => (s, Except.ok none)
    | TryWaitOutcome.done status => (⟨true⟩, Except.ok (some status))
    | TryWaitOutcome.failed m =>
      (s, Except.error ("failed checking PTY child status: " ++ m))

/-- A sequence of `poll_exit_message` calls on one session object,
returning the final state and every call's result. -/
def pollTrace (s : SessionExitState) :
    List TryWaitOutcome → SessionExitState × List (Except String (Option String))
  | [] => (s, [])
  | tw :: rest =>
    let step := poll_exit_message tw s
    let tail := pollTrace step.1 rest
    (tail.1, step.2 :: tail.2)

/-- The session pieces touched by `pump_output`: the queued output chunks
(head = oldest) and the terminal-emulation engine state, the latter
abstract since the engine is an external crate. -/
structure PumpState (σ : Type) where
  channel : List (List Nat)
  parser : σ

/-- The `while let Ok(chunk) = try_recv()` loop of
`TerminalSession::pump_output`, with the `updated` flag threaded through. -/
def pumpLoop {σ : Type} (process : σ → List Nat → σ) :
    List (List Nat) → σ → Bool → σ × Bool
  | [], p, updated => (p, updated)
  | c :: rest, p, _ => pumpLoop process rest (process p c) true

/-- `TerminalSession::pump_output` from `src/terminal.rs`: drain the
channel into the engine, report whether anything was processed. -/
def pump_output {σ : Type} (process : σ → List Nat → σ) (st : PumpState σ) :
    PumpState σ × Bool :=
  let r := pumpLoop process st.channel st.parser false
  (⟨[], r.1⟩, r.2)

/-- The PTY writer as `send_key` observes it: the byte sequences written
and the number of flushes performed. -/
structure PtyWriter where
  writes : List (List Nat)
  flushes : Nat
deriving DecidableEq, Repr

/-- `TerminalSession::send_key` from `src/terminal.rs`: encode, return
`Ok` immediately when the encoder yields nothing, otherwise write the
bytes (a write failure is an error) and flush best-effort. -/
def send_key (writeOk : Bool) (key : KeyEvent) (w : PtyWriter) :
    Except String PtyWriter :=
  match encode_key_event key with
  | none => Except.ok w
  | some bytes =>
    if writeOk then
      Except.ok { writes := w.writes ++ [bytes], flushes := w.flushes + 1 }
    else Except.error "failed to write key to PTY"

/-! ## Shell resolution (`src/terminal.rs`) -/

/-- `ShellCommand` from `src/terminal.rs`. -/
structure ShellCommand where
  program : String
  args : List String
deriving DecidableEq, Repr

/-- The ordered candidate array probed by `default_shell_program`,
per platform. -/
def shell_candidates (isWindows : Bool) : List String :=
  if isWindows then
    ["C:/Windows/System32/WindowsPowerShell/v1.0/powershell.exe",
     "C:/Windows/System32/cmd.exe"]
  else ["/bin/zsh", "/bin/bash"]

/-- `default_shell_program` from `src/terminal.rs`: first candidate that
exists on disk; the filesystem is the external parameter `fsExists`. -/
def default_shell_program (isWindows : Bool) (fsExists : String → Bool) :
    Option String :=
  (shell_candidates isWindows).find? fsExists

/-- `fallback_shell_program` from `src/terminal.rs`. -/
def fallback_shell_program (isWindows : Bool) : String :=
  if isWindows then "cmd.exe" else "/bin/sh"

/-- `shell_args_for_windows` from `src/terminal.rs`: ASCII-lowercase the
program, then key the arguments on its file-name suffix. -/
def shell_args_for_windows (program : String) : List String :=
  let lower := String.map Char.toLower program
  if lower.endsWith "powershell.exe" ∨ lower.endsWith "pwsh.exe" then
    ["-NoLogo", "-NoExit"]
  else if lower.endsWith "cmd.exe" then ["/K"]
  else []

/-- `shell_command` from `src/terminal.rs`: `$SHELL` (non-empty, existing)
first, then the platform candidates, then the hard-coded fallback; the
argument list keyed on platform and resolved program. -/
def shell_command (isWindows : Bool) (envShell : Option String)
    (fsExists : String → Bool) : ShellCommand :=
  let env_shell := envShell.filter (fun value => !value.isEmpty)
  let preferred :=
    match env_shell.filter fsExists with
    | some p => some p
    | none => default_shell_program isWindows fsExists
  let program := preferred.getD (fallback_shell_program isWindows)
  let args := if isWindows then shell_args_for_windows program else ["-i"]
  ⟨program, args⟩

/-! ## Helper lemmas -/

theorem pumpLoop_true {σ : Type} (process : σ → List Nat → σ) :
    ∀ (ch : List (List Nat)) (p : σ), pumpLoop process ch p true = (ch.foldl process p, true) := by
  intro ch
  induction ch with
  | nil => intro p; rfl
  | cons c rest ih => intro p; simpa [pumpLoop] using ih (process p c)

theorem pollTrace_running (n : Nat) :
    pollTrace sessionExitAtStart (List.replicate n TryWaitOutcome.running) =
      (sessionExitAtStart, List.replicate n (Except.ok none)) := by
  induction n with
  | zero => rfl
  | succ m ih =>
    rw [sessionExitAtStart] at ih
    simp [pollTrace, poll_exit_message, sessionExitAtStart, List.replicate_succ, ih]

theorem pollTrace_exited (runs : List TryWaitOutcome) :
    pollTrace ⟨true⟩ runs = (⟨true⟩, List.replicate runs.length (Except.ok none)) := by
  induction runs with
  | nil => rfl
  | cons tw rest ih =>
    simp [pollTrace, poll_exit_message, List.replicate_succ, ih]

/-- Everything a copy-mode cursor move may not touch: selection anchor,
search prompt flag, in-progress query, last confirmed query, copy-mode
flag, stored viewport dimensions, status line. -/
def copyModeFrame (t s : App) : Prop :=
  t.terminal_selection_anchor = s.terminal_selection_anchor ∧
  t.terminal_search_open = s.terminal_search_open ∧
  t.terminal_search_query = s.terminal_search_query ∧
  t.terminal_last_search = s.terminal_last_search ∧
  t.terminal_copy_mode = s.terminal_copy_mode ∧
  t.terminal_view_rows = s.terminal_view_rows ∧
  t.terminal_view_cols = s.terminal_view_cols ∧
  t.status = s.status

theorem copyModeFrame_refl (s : App) : copyModeFrame s s :=
  ⟨rfl, rfl, rfl, rfl, rfl, rfl, rfl, rfl⟩

theorem copyModeFrame_trans {t s r : App} (h1 : copyModeFrame t s) (h2 : copyModeFrame s r) :
    copyModeFrame t r := by
  obtain ⟨a1, a2, a3, a4, a5, a6, a7, a8⟩ := h1
  obtain ⟨b1, b2, b3, b4, b5, b6, b7, b8⟩ := h2
  exact ⟨a1.trans b1, a2.trans b2, a3.trans b3, a4.trans b4, a5.trans b5,
    a6.trans b6, a7.trans b7, a8.trans b8⟩

theorem scroll_terminal_frame (buffered : Nat) (delta : Int) (st : App) :
    copyModeFrame (scroll_terminal buffered delta st) st := by
  exact ⟨rfl, rfl, rfl, rfl, rfl, rfl, rfl, rfl⟩

theorem moveUpSteps_frame (buffered : Nat) :
    ∀ (n : Nat) (st : App), copyModeFrame (moveUpSteps buffered n st) st := by
  intro n
  induction n with
  | zero => intro st; exact copyModeFrame_refl st
  | succ m ih =>
    intro st
    by_cases h : 0 < st.terminal_cursor_row
    · simpa [moveUpSteps, h] using
        copyModeFrame_trans (ih _) (copyModeFrame_refl _)
    · simpa [moveUpSteps, h] using
        copyModeFrame_trans (ih _) (scroll_terminal_frame buffered 1 st)

theorem moveDownSteps_frame (buffered : Nat) :
    ∀ (n : Nat) (st : App), copyModeFrame (moveDownSteps buffered n st) st := by
  intro n
  induction n with
  | zero => intro st; exact copyModeFrame_refl st
  | succ m ih =>
    intro st
    by_cases h : st.terminal_cursor_row < st.terminal_view_rows - 1
    · simpa [moveDownSteps, h] using
        copyModeFrame_trans (ih _) (copyModeFrame_refl _)
    · by_cases h2 : 0 < st.terminal_scrollback
      · simpa [moveDownSteps, h, h2] using
          copyModeFrame_trans (ih _) (scroll_terminal_frame buffered (-1) st)
      · simpa [moveDownSteps, h, h2] using
          copyModeFrame_trans (ih _) (copyModeFrame_refl _)

theorem terminal_move_cursor_frame_aux (buffered : Nat) (rowDelta colDelta : Int) (st : App) :
    copyModeFrame (terminal_move_cursor buffered rowDelta colDelta st) st := by
  unfold terminal_move_cursor
  have hrow :
      copyModeFrame
        (if rowDelta ≠ 0 then
          if rowDelta < 0 then moveUpSteps buffered rowDelta.natAbs st
          else moveDownSteps buffered rowDelta.toNat st
        else st) st := by
    split
    · split
      · exact moveUpSteps_frame buffered _ st
      · exact moveDownSteps_frame buffered _ st
    · exact copyModeFrame_refl st
  set mid := (if rowDelta ≠ 0 then
      if rowDelta < 0 then moveUpSteps buffered rowDelta.natAbs st
      else moveDownSteps buffered rowDelta.toNat st
    else st) with hmid
  split
  · exact copyModeFrame_trans ⟨rfl, rfl, rfl, rfl, rfl, rfl, rfl, rfl⟩ hrow
  · split
    · exact copyModeFrame_trans ⟨rfl, rfl, rfl, rfl, rfl, rfl, rfl, rfl⟩ hrow
    · exact hrow

theorem moveUpSteps_row_le (buffered : Nat) :
    ∀ (n : Nat) (st : App),
      st.terminal_cursor_row ≤ st.terminal_view_rows - 1 →
      (moveUpSteps buffered n st).terminal_cursor_row ≤ st.terminal_view_rows - 1 := by
  intro n
  induction n with
  | zero => intro st h; exact h
  | succ m ih =>
    intro st h
    by_cases hp : 0 < st.terminal_cursor_row
    · have hb : st.terminal_cursor_row - 1 ≤ st.terminal_view_rows - 1 := by omega
      simpa [moveUpSteps, hp] using
        ih { st with terminal_cursor_row := st.terminal_cursor_row - 1 } hb
    · have hb : (scroll_terminal buffered 1 st).terminal_cursor_row ≤
          (scroll_terminal buffered 1 st).terminal_view_rows - 1 := by
        simp only [scroll_terminal]
        omega
      have := ih (scroll_terminal buffered 1 st) hb
      simpa [moveUpSteps, hp, scroll_terminal] using this

theorem moveDownSteps_row_le (buffered : Nat) :
    ∀ (n : Nat) (st : App),
      st.terminal_cursor_row ≤ st.terminal_view_rows - 1 →
      (moveDownSteps buffered n st).terminal_cursor_row ≤ st.terminal_view_rows - 1 := by
  intro n
  induction n with
  | zero => intro st h; exact h
  | succ m ih =>
    intro st h
    by_cases hp : st.terminal_cursor_row < st.terminal_view_rows - 1
    · have hb : st.terminal_cursor_row + 1 ≤ st.terminal_view_rows - 1 := by omega
      simpa [moveDownSteps, hp] using
        ih { st with terminal_cursor_row := st.terminal_cursor_row + 1 } hb
    · by_cases h2 : 0 < st.terminal_scrollback
      · have hb : (scroll_terminal buffered (-1) st).terminal_cursor_row ≤
            (scroll_terminal buffered (-1) st).terminal_view_rows - 1 := by
          simp only [scroll_terminal]
          omega
        have := ih (scroll_terminal buffered (-1) st) hb
        simpa [moveDownSteps, hp, h2, scroll_terminal] using this
      · simpa [moveDownSteps, hp, h2] using ih st h

theorem drop_min_len {α : Type} (l : List α) (n : Nat) :
    l.drop (min n l.length) = l.drop n := by
  rcases le_total n l.length with h | h
  · rw [min_eq_left h]
  · rw [min_eq_right h, List.drop_length, List.drop_eq_nil_of_le h]

theorem slice_take_drop {α : Type} (l : List α) (a b : Nat) :
    (l.drop (min a l.length)).take (min b l.length - min a l.length) =
      (l.take b).drop a := by
  rw [drop_min_len, List.drop_take, List.take_eq_take]
  simp only [List.length_drop]
  omega

theorem yankSlice_eq_spec (rows : List (List Char)) (sr sc er ec r : Nat) :
    yankSlice rows sr sc er ec r =
      (if r = sr ∧ r = er then (((rows.get? r).getD []).take (ec + 1)).drop sc
       else if r = sr then ((rows.get? r).getD []).drop sc
       else if r = er then ((rows.get? r).getD []).take (ec + 1)
       else (rows.get? r).getD []) := by
  by_cases h1 : r = sr
  · by_cases h2 : r = er
    · subst h1
      subst h2
      simp only [yankSlice, if_pos rfl, and_self, if_true]
      exact slice_take_drop _ sc (ec + 1)
    · subst h1
      simp only [yankSlice, if_pos rfl, if_neg h2, and_iff_right rfl, true_and, if_true]
      rw [drop_min_len]
      apply List.take_of_length_le
      simp only [List.length_drop]
      omega
  · by_cases h2 : r = er
    · subst h2
      have hns : ¬(r = sr ∧ r = r) := fun h => h1 h.1
      simp only [yankSlice, if_neg h1, if_pos rfl, if_neg hns, List.drop_zero,
        Nat.sub_zero, if_true, and_true]
      rw [List.take_eq_take]
      omega
    · have hns : ¬(r = sr ∧ r = er) := fun h => h1 h.1
      simp only [yankSlice, if_neg h1, if_neg h2, if_neg hns, List.drop_zero,
        Nat.sub_zero, List.take_length]

theorem order_positions_swap (a b : Nat × Nat) :
    order_positions a b = order_positions b a := by
  obtain ⟨a1, a2⟩ := a
  obtain ⟨b1, b2⟩ := b
  unfold order_positions
  by_cases h1 : a1 < b1 ∨ (a1 = b1 ∧ a2 ≤ b2) <;>
    by_cases h2 : b1 < a1 ∨ (b1 = a1 ∧ b2 ≤ a2) <;>
    simp only [h1, h2, if_true, if_false, if_pos, if_neg, not_false_iff]
  · have he1 : a1 = b1 := by omega
    have he2 : a2 = b2 := by omega
    subst he1
    subst he2
    rfl
  · omega

theorem yankText_eq_spec (rows : List (List Char)) (anchor cursor : Nat × Nat) :
    yankText rows anchor cursor = specYankText rows anchor cursor := by
  obtain ⟨a1, a2⟩ := anchor
  obtain ⟨c1, c2⟩ := cursor
  by_cases h : a1 < c1 ∨ (a1 = c1 ∧ a2 ≤ c2)
  · simp only [yankText, specYankText, order_positions, h, if_true]
    congr 1
    rw [List.range'_eq_map_range, List.map_map]
    apply List.map_congr_left
    intro i _
    simpa using yankSlice_eq_spec rows a1 a2 c1 c2 (a1 + i)
  · simp only [yankText, specYankText, order_positions, h, if_false]
    congr 1
    rw [List.range'_eq_map_range, List.map_map]
    apply List.map_congr_left
    intro i _
    simpa using yankSlice_eq_spec rows c1 c2 a1 a2 (c1 + i)

theorem yankText_swap (rows : List (List Char)) (a c : Nat × Nat) :
    yankText rows a c = yankText rows c a := by
  unfold yankText
  rw [order_positions_swap]

/-! ## Search correctness lemmas -/

/-- `query` occurs in `line` at character index `c`. -/
def matchAt (line query : List Char) (c : Nat) : Prop :=
  (line.drop c).take query.length = query

theorem mem_range'_iff (m s n : Nat) : m ∈ List.range' s n ↔ s ≤ m ∧ m < s + n := by
  rw [List.mem_range']
  constructor
  · rintro ⟨i, hi, rfl⟩
    omega
  · rintro ⟨h1, h2⟩
    exact ⟨m - s, by omega, by omega⟩

theorem scanLine_some (line query : List Char) :
    ∀ (n idx j : Nat), scanLine line query idx n = some j →
      idx ≤ j ∧ j < idx + n ∧ matchAt line query j ∧
        ∀ k, idx ≤ k → k < j → ¬matchAt line query k := by
  intro n
  induction n with
  | zero => intro idx j h; simp [scanLine] at h
  | succ m ih =>
    intro idx j h
    by_cases hm : (line.drop idx).take query.length = query
    · rw [scanLine, if_pos hm] at h
      obtain rfl : idx = j := by injection h
      exact ⟨le_rfl, by omega, hm, fun k hk1 hk2 _ => by omega⟩
    · rw [scanLine, if_neg hm] at h
      obtain ⟨h1, h2, h3, h4⟩ := ih (idx + 1) j h
      refine ⟨by omega, by omega, h3, ?_⟩
      intro k hk1 hk2
      rcases Nat.eq_or_lt_of_le hk1 with heq | hlt
      · subst heq
        simpa [matchAt] using hm
      · exact h4 k hlt hk2

theorem scanLine_none (line query : List Char) :
    ∀ (n idx : Nat), scanLine line query idx n = none →
      ∀ k, idx ≤ k → k < idx + n → ¬matchAt line query k := by
  intro n
  induction n with
  | zero => intro idx _ k _ _; omega
  | succ m ih =>
    intro idx h k hk1 hk2
    by_cases hm : (line.drop idx).take query.length = query
    · rw [scanLine, if_pos hm] at h
      cases h
    · rw [scanLine, if_neg hm] at h
      rcases Nat.eq_or_lt_of_le hk1 with heq | hlt
      · subst heq
        simpa [matchAt] using hm
      · exact ih (idx + 1) h k hlt (by omega)

theorem matchAt_bound (line query : List Char) (hq : query ≠ []) (c : Nat)
    (h : matchAt line query c) : c + query.length ≤ line.length := by
  have hq0 : 0 < query.length := List.length_pos.mpr hq
  have hlen := congrArg List.length h
  simp only [List.length_take, List.length_drop] at hlen
  omega

theorem find_query_some (line query : List Char) (startCol j : Nat) (hq : query ≠ [])
    (h : find_query_in_line line query startCol = some j) :
    startCol ≤ j ∧ matchAt line query j ∧
      ∀ k, startCol ≤ k → k < j → ¬matchAt line query k := by
  have hq0 : 0 < query.length := List.length_pos.mpr hq
  have hq0' : ¬query.length = 0 := by omega
  by_cases hl : line.length < query.length
  · rw [find_query_in_line, if_neg hq0', if_pos hl] at h
    cases h
  · rw [find_query_in_line, if_neg hq0', if_neg hl] at h
    obtain ⟨h1, h2, h3, h4⟩ := scanLine_some line query _ _ _ h
    have hjb := matchAt_bound line query hq j h3
    have hfrm : min startCol line.length = startCol := by omega
    rw [hfrm] at h1 h4
    exact ⟨h1, h3, h4⟩

theorem find_query_none (line query : List Char) (startCol : Nat) (hq : query ≠ [])
    (h : find_query_in_line line query startCol = none) :
    ∀ k, startCol ≤ k → ¬matchAt line query k := by
  intro k hk hmk
  have hq0 : 0 < query.length := List.length_pos.mpr hq
  have hq0' : ¬query.length = 0 := by omega
  have hkb := matchAt_bound line query hq k hmk
  by_cases hl : line.length < query.length
  · omega
  · rw [find_query_in_line, if_neg hq0', if_neg hl] at h
    exact scanLine_none line query _ _ h k (by omega) (by omega) hmk

/-- The per-row starting column of the search: strictly after the cursor
column on the starting row, the row start elsewhere. -/
def allowedCol (startRow startCol r : Nat) : Nat :=
  if r = startRow then startCol else 0

/-- The order in which the two search passes visit the rows: the
starting row first, then forward to the end of the buffer, then from
row 0 up to (not including) the starting row. -/
def searchRowOrder (startRow total : Nat) : List Nat :=
  List.range' startRow (total - startRow) ++ List.range' 0 startRow

/-- Position of row `r` in `searchRowOrder`. -/
def wrapRank (startRow total r : Nat) : Nat :=
  if startRow ≤ r then r - startRow else total - startRow + r

theorem searchPass_some (rows : List (List Char)) (query : List Char)
    (startRow startCol : Nat) (hq : query ≠ []) :
    ∀ (rs : List Nat) (r c : Nat),
      searchPass rows query startRow startCol rs = some (r, c) →
      ∃ pre post, rs = pre ++ r :: post ∧
        (∀ r2 ∈ pre, ∀ k, allowedCol startRow startCol r2 ≤ k →
          ¬matchAt ((rows.get? r2).getD []) query k) ∧
        allowedCol startRow startCol r ≤ c ∧
        matchAt ((rows.get? r).getD []) query c ∧
        (∀ k, allowedCol startRow startCol r ≤ k → k < c →
          ¬matchAt ((rows.get? r).getD []) query k) := by
  intro rs
  induction rs with
  | nil => intro r c h; simp [searchPass] at h
  | cons r0 rest ih =>
    intro r c h
    cases hf : find_query_in_line ((rows.get? r0).getD []) query
        (if r0 = startRow then startCol else 0) with
    | some c0 =>
      rw [searchPass, hf] at h
      obtain ⟨rfl, rfl⟩ : r0 = r ∧ c0 = c := by
        have hinj := Option.some.inj h
        exact ⟨congrArg Prod.fst hinj, congrArg Prod.snd hinj⟩
      obtain ⟨h1, h2, h3⟩ := find_query_some _ query _ _ hq hf
      exact ⟨[], rest, rfl, by simp, h1, h2, h3⟩
    | none =>
      rw [searchPass, hf] at h
      obtain ⟨pre, post, hsplit, hpre, hc1, hc2, hc3⟩ := ih r c h
      refine ⟨r0 :: pre, post, by rw [hsplit]; rfl, ?_, hc1, hc2, hc3⟩
      intro r2 hr2 k hk
      rcases List.mem_cons.mp hr2 with heq | hmem
      · subst heq
        exact find_query_none _ query _ hq hf k hk
      · exact hpre r2 hmem k hk

theorem searchPass_none (rows : List (List Char)) (query : List Char)
    (startRow startCol : Nat) (hq : query ≠ []) :
    ∀ rs : List Nat, searchPass rows query startRow startCol rs = none →
      ∀ r ∈ rs, ∀ k, allowedCol startRow startCol r ≤ k →
        ¬matchAt ((rows.get? r).getD []) query k := by
  intro rs
  induction rs with
  | nil => intro _ r hr; cases hr
  | cons r0 rest ih =>
    intro h r hr k hk
    cases hf : find_query_in_line ((rows.get? r0).getD []) query
        (if r0 = startRow then startCol else 0) with
    | some c0 => rw [searchPass, hf] at h; cases h
    | none =>
      rw [searchPass, hf] at h
      rcases List.mem_cons.mp hr with heq | hmem
      · subst heq
        exact find_query_none _ query _ hq hf k hk
      · exact ih h r hmem k hk

theorem searchRowOrder_nodup (startRow total : Nat) :
    (searchRowOrder startRow total).Nodup := by
  refine List.Nodup.append (List.nodup_range' _ _) (List.nodup_range' _ _) ?_
  intro x hx1 hx2
  rw [mem_range'_iff] at hx1 hx2
  omega

theorem searchRowOrder_get (startRow total r : Nat) (hr : r < total) :
    (searchRowOrder startRow total).get? (wrapRank startRow total r) = some r := by
  unfold searchRowOrder wrapRank
  by_cases h : startRow ≤ r
  · rw [if_pos h]
    rw [List.get?_append (by simp [List.length_range']; omega)]
    rw [List.get?_range' startRow 1 (show r - startRow < total - startRow by omega)]
    congr 1
    omega
  · rw [if_neg h]
    rw [List.get?_append_right (by simp [List.length_range'])]
    simp only [List.length_range']
    have hidx : total - startRow + r - (total - startRow) = r := by omega
    rw [hidx]
    rw [List.get?_range' 0 1 (show r < startRow by omega)]
    congr 1
    omega

theorem searchRowOrder_mem (startRow total r : Nat) (hs : startRow < total) (hr : r < total) :
    r ∈ searchRowOrder startRow total := by
  unfold searchRowOrder
  rw [List.mem_append, mem_range'_iff, mem_range'_iff]
  omega

theorem searchFound_eq_pass (rows : List (List Char)) (query : List Char)
    (startRow startCol : Nat) :
    searchFound rows query startRow startCol =
      searchPass rows query startRow startCol (searchRowOrder startRow rows.length) := by
  unfold searchFound searchRowOrder
  induction List.range' startRow (rows.length - startRow) with
  | nil =>
    simp only [List.nil_append]
    cases searchPass rows query startRow startCol (List.range' 0 startRow) <;> rfl
  | cons r0 rest ih =>
    cases hf : find_query_in_line ((rows.get? r0).getD []) query
        (if r0 = startRow then startCol else 0) with
    | some c0 =>
      rw [List.cons_append, searchPass, hf, searchPass, hf]
    | none =>
      rw [List.cons_append, searchPass, hf, searchPass, hf]
      exact ih

theorem searchRowOrder_len (startRow total : Nat) (hs : startRow ≤ total) :
    (searchRowOrder startRow total).length = total := by
  simp [searchRowOrder, List.length_range']
  omega

theorem searchFound_spec (rows : List (List Char)) (query : List Char)
    (startRow startCol : Nat) (hq : query ≠ []) (hs : startRow < rows.length) :
    (∀ r c, searchFound rows query startRow startCol = some (r, c) →
      r < rows.length ∧
      allowedCol startRow startCol r ≤ c ∧
      matchAt ((rows.get? r).getD []) query c ∧
      (∀ r2 c2, r2 < rows.length →
        wrapRank startRow rows.length r2 < wrapRank startRow rows.length r →
        allowedCol startRow startCol r2 ≤ c2 →
        ¬matchAt ((rows.get? r2).getD []) query c2) ∧
      (∀ c2, allowedCol startRow startCol r ≤ c2 → c2 < c →
        ¬matchAt ((rows.get? r).getD []) query c2)) ∧
    (searchFound rows query startRow startCol = none →
      ∀ r c, r < rows.length → allowedCol startRow startCol r ≤ c →
        ¬matchAt ((rows.get? r).getD []) query c) := by
  constructor
  · intro r c hfound
    rw [searchFound_eq_pass] at hfound
    obtain ⟨pre, post, hsplit, hpre, hc1, hc2, hc3⟩ :=
      searchPass_some rows query startRow startCol hq _ r c hfound
    have hrmem : r ∈ searchRowOrder startRow rows.length := by
      rw [hsplit]
      exact List.mem_append.mpr (Or.inr (List.mem_cons_self _ _))
    have hrlt : r < rows.length := by
      unfold searchRowOrder at hrmem
      rcases List.mem_append.mp hrmem with hm | hm <;> rw [mem_range'_iff] at hm <;> omega
    have hlenL : (searchRowOrder startRow rows.length).length = rows.length :=
      searchRowOrder_len _ _ (by omega)
    have hgetr : (searchRowOrder startRow rows.length).get? pre.length = some r := by
      rw [hsplit, List.get?_append_right le_rfl]
      simp
    have hrank : wrapRank startRow rows.length r = pre.length :=
      @List.get?_inj (wrapRank startRow rows.length r) Nat
        (searchRowOrder startRow rows.length) pre.length
        (by rw [hlenL]; unfold wrapRank; split <;> omega)
        (searchRowOrder_nodup _ _)
        (by rw [searchRowOrder_get _ _ _ hrlt, hgetr])
    refine ⟨hrlt, hc1, hc2, ?_, hc3⟩
    intro r2 c2 hr2 hrank2 hal2
    have hget2 : (searchRowOrder startRow rows.length).get? (wrapRank startRow rows.length r2) =
        some r2 := searchRowOrder_get _ _ _ hr2
    rw [hrank] at hrank2
    have hpreget : (searchRowOrder startRow rows.length).get? (wrapRank startRow rows.length r2) =
        pre.get? (wrapRank startRow rows.length r2) := by
      rw [hsplit]
      exact List.get?_append hrank2
    have hmem2 : r2 ∈ pre := List.get?_mem (hpreget.symm.trans hget2)
    exact hpre r2 hmem2 c2 hal2
  · intro hfound r c hr hal
    rw [searchFound_eq_pass] at hfound
    exact searchPass_none rows query startRow startCol hq _ hfound r
      (searchRowOrder_mem _ _ _ hs hr) c hal

/-- C2: confirming a search trims the in-progress query (or the
last-used one when the prompt is closed); an empty trimmed query warns,
closes the prompt, and moves nothing; otherwise the query is stored as
the last query, the prompt closes, and the cursor moves (clamped to the
viewport) to the first case-sensitive character-indexed match strictly
after the cursor column on its row, scanning forward then wrapping from
row 0 up to (not including) the starting row — first both in the wrap
order of rows and within the matched row; with no match anywhere (or no
rows at all) a warning is reported and the cursor stays; a query whose
last occurrence sits under the cursor is found again at its earlier
occurrence by wrapping, as the concrete two-row example shows. -/
theorem terminal_search_confirm_spec (rows : List (List Char)) (st : App)
    (query : List Char)
    (hquery : query = trimChars (if st.terminal_search_open then st.terminal_search_query
      else st.terminal_last_search))
    (startRow startCol : Nat)
    (hsr : startRow = min st.terminal_cursor_row (rows.length - 1))
    (hsc : startCol = st.terminal_cursor_col + 1) :
    (query = [] →
      terminal_search_next rows st =
        { st with terminal_search_open := false,
                  status := ⟨StatusKind.warn, "Search query is empty"⟩ }) ∧
    (query ≠ [] → rows = [] →
      terminal_search_next rows st =
        { st with terminal_search_open := false, terminal_last_search := query,
                  status := ⟨StatusKind.warn, "No terminal output to search"⟩ }) ∧
    (query ≠ [] → rows ≠ [] →
      (∀ r c, searchFound rows query startRow startCol = some (r, c) →
        terminal_search_next rows st =
          { st with terminal_search_open := false, terminal_last_search := query,
                    terminal_cursor_row := min r (st.terminal_view_rows - 1),
                    terminal_cursor_col := min c (st.terminal_view_cols - 1),
                    status := ⟨StatusKind.info, "Found `" ++ String.mk query ++ "`"⟩ } ∧
        r < rows.length ∧
        allowedCol startRow startCol r ≤ c ∧
        matchAt ((rows.get? r).getD []) query c ∧
        (∀ r2 c2, r2 < rows.length →
          wrapRank startRow rows.length r2 < wrapRank startRow rows.length r →
          allowedCol startRow startCol r2 ≤ c2 →
          ¬matchAt ((rows.get? r2).getD []) query c2) ∧
        (∀ c2, allowedCol startRow startCol r ≤ c2 → c2 < c →
          ¬matchAt ((rows.get? r).getD []) query c2)) ∧
      (searchFound rows query startRow startCol = none →
        terminal_search_next rows st =
          { st with terminal_search_open := false, terminal_last_search := query,
                    status :=
                      ⟨StatusKind.warn, "No match for `" ++ String.mk query ++ "`"⟩ } ∧
        ∀ r c, r < rows.length → allowedCol startRow startCol r ≤ c →
          ¬matchAt ((rows.get? r).getD []) query c)) ∧
    (terminal_search_next [['a', 'b'], ['a', 'b']]
        ⟨true, true, ['a', 'b'], [], 1, 0, none, 2, 2, 0, ⟨StatusKind.info, ""⟩⟩ =
      ⟨true, false, ['a', 'b'], ['a', 'b'], 0, 0, none, 2, 2, 0,
        ⟨StatusKind.info, "Found `ab`"⟩⟩) := by
  subst hquery hsr hsc
  refine ⟨?_, ?_, ?_, by decide⟩
  · intro hq
    simp [terminal_search_next, hq, set_status_warn]
  · intro hqne hrows
    subst hrows
    have hq4 : (trimChars (if st.terminal_search_open then st.terminal_search_query
        else st.terminal_last_search)).isEmpty = false := by
      cases hql : trimChars (if st.terminal_search_open then st.terminal_search_query
          else st.terminal_last_search) with
      | nil => exact absurd hql hqne
      | cons x xs => rfl
    simp [terminal_search_next, hq4, set_status_warn]
  · intro hqne hrne
    have hq4 : (trimChars (if st.terminal_search_open then st.terminal_search_query
        else st.terminal_last_search)).isEmpty = false := by
      cases hql : trimChars (if st.terminal_search_open then st.terminal_search_query
          else st.terminal_last_search) with
      | nil => exact absurd hql hqne
      | cons x xs => rfl
    have hre : rows.isEmpty = false := by
      cases rows with
      | nil => exact absurd rfl hrne
      | cons x xs => rfl
    have hlen : 0 < rows.length := List.length_pos.mpr hrne
    have hsrlt : min st.terminal_cursor_row (rows.length - 1) < rows.length := by
      omega
    constructor
    · intro r c hfound
      have hprops := (searchFound_spec rows _ _ _ hqne hsrlt).1 r c hfound
      refine ⟨?_, hprops.1, hprops.2.1, hprops.2.2.1, hprops.2.2.2.1, hprops.2.2.2.2⟩
      simp [terminal_search_next, hq4, hre, hfound, set_status_info]
    · intro hfound
      refine ⟨?_, (searchFound_spec rows _ _ _ hqne hsrlt).2 hfound⟩
      simp [terminal_search_next, hq4, hre, hfound, set_status_warn]

/-- C2 witness. -/
theorem terminal_search_confirm_spec_witness :
    terminal_search_next [['a', 'b'], ['a', 'b']]
        ⟨true, true, ['a', 'b'], [], 1, 0, none, 2, 2, 0, ⟨StatusKind.info, ""⟩⟩ =
      ⟨true, false, ['a', 'b'], ['a', 'b'], 0, 0, none, 2, 2, 0,
        ⟨StatusKind.info, "Found `ab`"⟩⟩ :=
  (terminal_search_confirm_spec [['a', 'b'], ['a', 'b']]
    ⟨true, true, ['a', 'b'], [], 1, 0, none, 2, 2, 0, ⟨StatusKind.info, ""⟩⟩
    ['a', 'b'] (by decide) 1 1 (by decide) rfl).2.2.2

/-- C3, counterexample: the code maps `BackTab` to `ESC[Z`, while the
claim's named-key list does not cover `BackTab` and demands `None` for
every uncovered key/modifier combination. -/
theorem encode_key_event_backTab_counterexample :
    encode_key_event ⟨KeyCode.backTab, ⟨false, false, false⟩⟩ = some [27, 91, 90] ∧
    encodeClaimSpec ⟨KeyCode.backTab, ⟨false, false, false⟩⟩ = none := by
  exact ⟨rfl, rfl⟩

/-- C3, amended: `encode_key_event` implements exactly the claimed
mapping once `BackTab → ESC[Z]` is added to the covered named keys:
printable characters to UTF-8, CTRL through the C0 table (swallowing
characters outside it), the fixed named-key table, `none` for anything
uncovered, and an `ESC` prefix when ALT produced a non-empty sequence. -/
theorem encode_key_event_spec (event : KeyEvent) :
    encode_key_event event = encodeSpecAmended event := by
  obtain ⟨code, mods⟩ := event
  cases code <;> rfl

/-- C4: a session starts un-exited and stays so while the child runs
(each such poll returning no message); the first poll after the child
terminated returns the status description exactly once and flips
`is_exited` to true; from an exited session every further poll, whatever
the child check reports, returns no message and the flag never returns
to false. -/
theorem poll_exit_message_spec (status : String) (n : Nat) (later : List TryWaitOutcome) :
    is_exited sessionExitAtStart = false ∧
    pollTrace sessionExitAtStart (List.replicate n TryWaitOutcome.running) =
      (sessionExitAtStart, List.replicate n (Except.ok none)) ∧
    poll_exit_message (TryWaitOutcome.done status) sessionExitAtStart =
      (⟨true⟩, Except.ok (some status)) ∧
    is_exited (poll_exit_message (TryWaitOutcome.done status) sessionExitAtStart).1 = true ∧
    pollTrace ⟨true⟩ later = (⟨true⟩, List.replicate later.length (Except.ok none)) := by
  refine ⟨rfl, pollTrace_running n, rfl, rfl, pollTrace_exited later⟩

/-- C5: `pump_output` never waits — an empty channel returns `false` with
the state untouched; a non-empty channel is drained completely, each
chunk fed to the engine in arrival order (a left fold), returning
`true`. -/
theorem pump_output_spec {σ : Type} (process : σ → List Nat → σ) (st : PumpState σ) :
    (st.channel = [] → pump_output process st = (st, false)) ∧
    (st.channel ≠ [] →
      pump_output process st = (⟨[], st.channel.foldl process st.parser⟩, true)) := by
  obtain ⟨ch, p⟩ := st
  constructor
  · intro h
    subst h
    rfl
  · intro h
    match ch, h with
    | c :: rest, _ =>
      simp only [pump_output, pumpLoop, pumpLoop_true]
      rfl

/-- C5 witness. -/
theorem pump_output_spec_witness :
    pump_output (fun (s : List (List Nat)) c => s ++ [c]) ⟨[[1], [2]], []⟩ =
      (⟨[], [[1], [2]]⟩, true) := by
  simpa using
    (pump_output_spec (fun (s : List (List Nat)) c => s ++ [c]) ⟨[[1], [2]], []⟩).2
      (by decide)

/-- C9: a key event that the encoder maps to no byte sequence makes
`send_key` return `Ok` with the PTY writer untouched — no write, no
flush; in particular CTRL with a character outside the C0 table is such
an event. -/
theorem send_key_swallowed_spec (key : KeyEvent) (writeOk : Bool) (w : PtyWriter)
    (h : encode_key_event key = none) :
    send_key writeOk key w = Except.ok w ∧
    encode_key_event ⟨KeyCode.char '~', ⟨true, false, false⟩⟩ = none := by
  constructor
  · simp [send_key, h]
  · rfl

/-- C9 witness. -/
theorem send_key_swallowed_spec_witness :
    send_key true ⟨KeyCode.char '~', ⟨true, false, false⟩⟩ ⟨[], 0⟩ =
      Except.ok ⟨[], 0⟩ :=
  (send_key_swallowed_spec ⟨KeyCode.char '~', ⟨true, false, false⟩⟩ true ⟨[], 0⟩ rfl).1

/-- C6: shell resolution is total and picks the environment-declared
shell when it names an existing path, otherwise the first existing entry
of the platform's fixed candidate list, otherwise the hard-coded
platform fallback; arguments are the interactive flag on unix-like
platforms and, on windows, keyed on the detected shell family of the
resolved program (banner-suppressing/keep-alive flags for PowerShell,
the keep-running flag for the command prompt, nothing otherwise). -/
theorem shell_command_spec (isWindows : Bool) (envShell : Option String)
    (fsExists : String → Bool) :
    (∀ p : String, envShell = some p → ¬p.isEmpty → fsExists p →
      (shell_command isWindows envShell fsExists).program = p) ∧
    ((∀ p : String, envShell = some p → p.isEmpty ∨ ¬fsExists p) →
      (shell_command isWindows envShell fsExists).program =
        ((shell_candidates isWindows).find? fsExists).getD
          (fallback_shell_program isWindows)) ∧
    ((∀ p : String, envShell = some p → p.isEmpty ∨ ¬fsExists p) →
      (∀ c ∈ shell_candidates isWindows, ¬fsExists c) →
      (shell_command isWindows envShell fsExists).program =
        fallback_shell_program isWindows) ∧
    ((shell_command isWindows envShell fsExists).args =
      (if isWindows then
        shell_args_for_windows (shell_command isWindows envShell fsExists).program
      else ["-i"])) ∧
    (∀ prog : String,
      shell_args_for_windows prog =
        (if (String.map Char.toLower prog).endsWith "powershell.exe" ∨
            (String.map Char.toLower prog).endsWith "pwsh.exe" then
          ["-NoLogo", "-NoExit"]
        else if (String.map Char.toLower prog).endsWith "cmd.exe" then ["/K"]
        else [])) := by
  refine ⟨?_, ?_, ?_, ?_, fun prog => rfl⟩
  · intro p hp hne hex
    simp [shell_command, hp, Option.filter, hne, hex]
  · intro habsent
    rcases henv : envShell with _ | p
    · simp [shell_command, henv, Option.filter, default_shell_program]
    · rcases habsent p henv with hemp | hnex
      · simp [shell_command, henv, Option.filter, hemp, default_shell_program]
      · by_cases hne : p.isEmpty
        · simp [shell_command, henv, Option.filter, hne, default_shell_program]
        · simp [shell_command, henv, Option.filter, hne, hnex, default_shell_program]
  · intro habsent hcand
    rcases henv : envShell with _ | p
    · simp [shell_command, henv, Option.filter, default_shell_program,
        List.find?_eq_none.mpr (fun c hc => by simpa using hcand c hc)]
    · rcases habsent p henv with hemp | hnex
      · simp [shell_command, henv, Option.filter, hemp, default_shell_program,
          List.find?_eq_none.mpr (fun c hc => by simpa using hcand c hc)]
      · by_cases hne : p.isEmpty
        · simp [shell_command, henv, Option.filter, hne, default_shell_program,
            List.find?_eq_none.mpr (fun c hc => by simpa using hcand c hc)]
        · simp [shell_command, henv, Option.filter, hne, hnex, default_shell_program,
            List.find?_eq_none.mpr (fun c hc => by simpa using hcand c hc)]
  · rcases envShell with _ | p <;> simp [shell_command]

/-- C6 witness. -/
theorem shell_command_spec_witness :
    shell_command false (some "/bin/fish") (fun s => s = "/bin/fish") =
      ⟨"/bin/fish", ["-i"]⟩ := by
  have h :=
    (shell_command_spec false (some "/bin/fish") (fun s => s = "/bin/fish")).1
      "/bin/fish" rfl (by decide) (by simp)
  have ha :=
    (shell_command_spec false (some "/bin/fish") (fun s => s = "/bin/fish")).2.2.2.1
  have heta : shell_command false (some "/bin/fish") (fun s => s = "/bin/fish") =
      ⟨(shell_command false (some "/bin/fish") (fun s => s = "/bin/fish")).program,
       (shell_command false (some "/bin/fish") (fun s => s = "/bin/fish")).args⟩ := rfl
  rw [heta, h, ha]
  simp

/-- C7: yank error handling — no anchor gives a warning, zero clipboard
calls and no other change; an empty extraction gives a warning and no
clipboard write; a clipboard failure (opening the clipboard or writing
to it) is surfaced as an error status by the caller and leaves the
anchor in place for retry; the anchor is cleared only on the successful
path, the one that actually writes the text. -/
theorem yank_error_handling_spec (rows : List (List Char)) (st : App) (a : Nat × Nat)
    (ha : st.terminal_selection_anchor = some a) (hr : rows ≠ [])
    (hout : yankText rows a (st.terminal_cursor_row, st.terminal_cursor_col) ≠ []) :
    (∀ (st2 : App) (clip : ClipboardBehavior), st2.terminal_selection_anchor = none →
      terminal_yank_selection rows clip st2 =
        ⟨{ st2 with status := ⟨StatusKind.warn, "No selection anchor; press v first"⟩ },
         Except.ok (), []⟩) ∧
    (∀ (st3 : App) (clip : ClipboardBehavior) (a3 : Nat × Nat),
      st3.terminal_selection_anchor = some a3 →
      yankText rows a3 (st3.terminal_cursor_row, st3.terminal_cursor_col) = [] →
      terminal_yank_selection rows clip st3 =
        ⟨{ st3 with status := ⟨StatusKind.warn, "Selection is empty"⟩ },
         Except.ok (), []⟩) ∧
    (terminal_yank_selection rows ClipboardBehavior.accessFails st =
      ⟨st, Except.error "failed to access system clipboard", []⟩) ∧
    ((run_action (terminal_yank_selection rows ClipboardBehavior.accessFails st).app
        (terminal_yank_selection rows ClipboardBehavior.accessFails st).res).status.kind =
      StatusKind.error) ∧
    ((run_action (terminal_yank_selection rows ClipboardBehavior.accessFails st).app
        (terminal_yank_selection rows ClipboardBehavior.accessFails st).res
        ).terminal_selection_anchor = some a) ∧
    ((terminal_yank_selection rows ClipboardBehavior.writeFails st).app.terminal_selection_anchor
        = some a) ∧
    ((terminal_yank_selection rows ClipboardBehavior.writeFails st).res =
      Except.error "failed to copy selection to clipboard") ∧
    ((terminal_yank_selection rows ClipboardBehavior.ok st).app.terminal_selection_anchor
        = none) ∧
    ((terminal_yank_selection rows ClipboardBehavior.ok st).clipboardWrites =
      [yankText rows a (st.terminal_cursor_row, st.terminal_cursor_col)]) := by
  have hre : rows.isEmpty = false := by
    cases rows with
    | nil => exact absurd rfl hr
    | cons x xs => rfl
  have houte :
      (yankText rows a (st.terminal_cursor_row, st.terminal_cursor_col)).isEmpty = false := by
    cases hy : yankText rows a (st.terminal_cursor_row, st.terminal_cursor_col) with
    | nil => exact absurd hy hout
    | cons x xs => rfl
  refine ⟨?_, ?_, ?_, ?_, ?_, ?_, ?_, ?_, ?_⟩
  · intro st2 clip h2
    simp [terminal_yank_selection, h2, set_status_warn]
  · intro st3 clip a3 h3 hy3
    simp [terminal_yank_selection, h3, hre, hy3, set_status_warn]
  · simp [terminal_yank_selection, ha, hre, houte]
  · simp [terminal_yank_selection, ha, hre, houte, run_action, set_status_error]
  · simp [terminal_yank_selection, ha, hre, houte, run_action, set_status_error]
  · simp [terminal_yank_selection, ha, hre, houte]
  · simp [terminal_yank_selection, ha, hre, houte]
  · simp [terminal_yank_selection, ha, hre, houte, set_status_info]
  · simp [terminal_yank_selection, ha, hre, houte]

/-- C7 witness. -/
theorem yank_error_handling_spec_witness :
    (terminal_yank_selection [['a']] ClipboardBehavior.ok
      ⟨true, false, [], [], 0, 0, some (0, 0), 1, 1, 0, ⟨StatusKind.info, ""⟩⟩
      ).app.terminal_selection_anchor = none ∧
    (terminal_yank_selection [['a']] ClipboardBehavior.accessFails
      ⟨true, false, [], [], 0, 0, some (0, 0), 1, 1, 0, ⟨StatusKind.info, ""⟩⟩
      ).app.terminal_selection_anchor = some (0, 0) := by
  have h := yank_error_handling_spec [['a']]
    ⟨true, false, [], [], 0, 0, some (0, 0), 1, 1, 0, ⟨StatusKind.info, ""⟩⟩
    (0, 0) rfl (by decide) (by decide)
  refine ⟨h.2.2.2.2.2.2.2.1, ?_⟩
  have h3 := h.2.2.1
  rw [h3]

/-- C1: for a yank with an anchor set on a non-empty row snapshot, the
extracted text is exactly the specification's extraction (row-major
normalisation of anchor/cursor, first row from `start.col` to its end,
last row up to `end.col` inclusive, full rows between, joined by
newlines, character-indexed); swapping anchor and cursor changes
nothing; the clipboard receives exactly that text (when non-empty); and
the spec's worked example evaluates as stated. -/
theorem terminal_yank_extraction_spec (rows : List (List Char)) (st : App) (a : Nat × Nat)
    (ha : st.terminal_selection_anchor = some a) (hr : rows ≠ []) :
    yankText rows a (st.terminal_cursor_row, st.terminal_cursor_col) =
      specYankText rows a (st.terminal_cursor_row, st.terminal_cursor_col) ∧
    yankText rows (st.terminal_cursor_row, st.terminal_cursor_col) a =
      yankText rows a (st.terminal_cursor_row, st.terminal_cursor_col) ∧
    (terminal_yank_selection rows ClipboardBehavior.ok st).clipboardWrites =
      (if (yankText rows a (st.terminal_cursor_row, st.terminal_cursor_col)).isEmpty
        then []
        else [yankText rows a (st.terminal_cursor_row, st.terminal_cursor_col)]) ∧
    yankText [['a','b','c','d','e','f'], ['g','h','i','j','k','l']] (0, 2) (1, 3) =
      "cdef\nghij".toList ∧
    yankText [['a','b','c','d','e','f'], ['g','h','i','j','k','l']] (1, 3) (0, 2) =
      "cdef\nghij".toList := by
  have hre : rows.isEmpty = false := by
    cases rows with
    | nil => exact absurd rfl hr
    | cons x xs => rfl
  refine ⟨yankText_eq_spec rows a _, yankText_swap rows _ a, ?_, by decide, by decide⟩
  by_cases he : (yankText rows a (st.terminal_cursor_row, st.terminal_cursor_col)).isEmpty
  · simp [terminal_yank_selection, ha, hre, he]
  · simp [terminal_yank_selection, ha, hre, he]

/-- C1 witness. -/
theorem terminal_yank_extraction_spec_witness :
    yankText [['a','b','c','d','e','f'], ['g','h','i','j','k','l']] (0, 2) (1, 3) =
      "cdef\nghij".toList :=
  (terminal_yank_extraction_spec [['x']]
    ⟨true, false, [], [], 0, 0, some (0, 0), 1, 1, 0, ⟨StatusKind.info, ""⟩⟩
    (0, 0) rfl (by decide)).2.2.2.1

/-- C10: a copy-mode cursor move, for any row and column delta, changes
at most the cursor position and the scrollback offset — the selection
anchor, the search prompt flag, the in-progress query, the last
confirmed query, the copy-mode flag, the stored viewport dimensions (and
the status line) are untouched. -/
theorem terminal_move_cursor_frame (buffered : Nat) (rowDelta colDelta : Int) (st : App) :
    copyModeFrame (terminal_move_cursor buffered rowDelta colDelta st) st :=
  terminal_move_cursor_frame_aux buffered rowDelta colDelta st

/-- C8: in copy mode, column deltas clamp the cursor column to
`[0, viewport_width - 1]`; row deltas keep the cursor row within
`[0, viewport_height - 1]`; an `up` step at row 0 (with buffered lines
left to reveal) bumps the scrollback offset by one and moves nothing
else; a `down` step at the last row while the offset is positive drops
it by one and moves nothing else. -/
theorem terminal_move_cursor_bounds (buffered : Nat) (st : App)
    (hrow : st.terminal_cursor_row ≤ st.terminal_view_rows - 1)
    (hcol : st.terminal_cursor_col ≤ st.terminal_view_cols - 1)
    (hsb : st.terminal_scrollback ≤ buffered) :
    (∀ d : Int,
      (terminal_move_cursor buffered 0 d st).terminal_cursor_col =
        min (Int.toNat (st.terminal_cursor_col + d)) (st.terminal_view_cols - 1)) ∧
    (∀ d : Int,
      (terminal_move_cursor buffered d 0 st).terminal_cursor_row ≤
        st.terminal_view_rows - 1) ∧
    (st.terminal_cursor_row = 0 → st.terminal_scrollback < buffered →
      terminal_move_cursor buffered (-1) 0 st =
        { st with terminal_scrollback := st.terminal_scrollback + 1 }) ∧
    (st.terminal_cursor_row = st.terminal_view_rows - 1 → 0 < st.terminal_scrollback →
      terminal_move_cursor buffered 1 0 st =
        { st with terminal_scrollback := st.terminal_scrollback - 1 }) := by
  refine ⟨?_, ?_, ?_, ?_⟩
  · intro d
    rcases lt_trichotomy d 0 with hd | hd | hd
    · have hd2 : ¬(0:Int) < d := by omega
      simp only [terminal_move_cursor, ne_eq, not_true_eq_false, if_false, hd, if_true]
      omega
    · subst hd
      simp only [terminal_move_cursor, ne_eq, not_true_eq_false, if_false]
      norm_num
      omega
    · have hd2 : ¬d < (0:Int) := by omega
      simp only [terminal_move_cursor, ne_eq, not_true_eq_false, if_false, hd2, if_true,
        hd, if_true]
      omega
  · intro d
    rcases lt_trichotomy d 0 with hd | hd | hd
    · have hne : d ≠ 0 := by omega
      simpa [terminal_move_cursor, hne, hd] using moveUpSteps_row_le buffered d.natAbs st hrow
    · subst hd
      simpa [terminal_move_cursor] using hrow
    · have hne : d ≠ 0 := by omega
      have hd2 : ¬d < (0:Int) := by omega
      simpa [terminal_move_cursor, hne, hd2] using
        moveDownSteps_row_le buffered d.toNat st hrow
  · intro h0 hlt
    have h1 : moveUpSteps buffered 1 st = scroll_terminal buffered 1 st := by
      simp [moveUpSteps, h0]
    simp only [terminal_move_cursor, ne_eq, neg_neg, if_true, if_false]
    norm_num
    rw [h1]
    simp [scroll_terminal, engineClampScrollback]
    omega
  · intro hlast hpos
    have h1 : moveDownSteps buffered 1 st = scroll_terminal buffered (-1) st := by
      have hx : ¬st.terminal_cursor_row < st.terminal_view_rows - 1 := by omega
      simp [moveDownSteps, hx, hpos]
    simp only [terminal_move_cursor, ne_eq, if_true, if_false]
    norm_num
    rw [h1]
    simp [scroll_terminal, engineClampScrollback]
    omega

/-- C8 witness. -/
theorem terminal_move_cursor_bounds_witness :
    terminal_move_cursor 5 (-1) 0
        ⟨true, false, [], [], 0, 0, none, 2, 2, 0, ⟨StatusKind.info, ""⟩⟩ =
      ⟨true, false, [], [], 0, 0, none, 2, 2, 1, ⟨StatusKind.info, ""⟩⟩ := by
  have h := (terminal_move_cursor_bounds 5
    ⟨true, false, [], [], 0, 0, none, 2, 2, 0, ⟨StatusKind.info, ""⟩⟩
    (by decide) (by decide) (by decide)).2.2.1 rfl (by decide)
  simpa using h

end Dif
